import Mathlib

/-!
# Verification of the sublation runtime core

Shallow embedding of the sublation engine (Go sources: package model
`Graph`/`Node` serialization, package runtime `Arena` layout and bump
allocation, `StreamScheduler` level computation, `Engine` sequential and
streaming execution, package kernels dispatch), together with theorems
settling the specification claims.

Bytes are modelled as `Nat` values (with `< 256` bounds supplied where a
theorem needs them); byte buffers are `List Nat`.  Fallible operations
return their result together with the post-state, mirroring the Go
functions that return `(value, error)` while mutating a receiver.
-/

namespace Sublation

/-- `alignUp a n` is the least multiple of `a` that is `>= n` (for `a > 0`).
Go writes this as `(n + a - 1) &^ (a - 1)` for a power-of-two `a`
(core.AlignedSize, core.Align32, arena bump alignment); for powers of two
the bit mask agrees with this division form. -/
def alignUp (a n : Nat) : Nat := (n + a - 1) / a * a

/-- core.AlignedSize: round a size up to the cache-line multiple (64 bytes). -/
def alignedSize (n : Nat) : Nat := alignUp 64 n

/-- Go `copy(dst, src)`: overwrite the first `min |dst| |src|` elements of
`dst` with those of `src`, keep the rest of `dst`. -/
def goCopy (dst src : List Nat) : List Nat :=
  src.take (min dst.length src.length) ++ dst.drop (min dst.length src.length)

/-! ## Graph model (package model: Node, Graph) -/

/-- model.Node: a graph node record.  `idn`, `inOff`, `outOff` are uint16
values, `kernel` a uint8 opcode, `flags` a uint32 bitfield and `topo` the
list of uint16 neighbor (dependency) ids. -/
structure Node where
  idn : Nat
  inOff : Nat
  outOff : Nat
  kernel : Nat
  flags : Nat
  topo : List Nat
deriving Repr, DecidableEq

/-- model.Graph: an ordered node list plus an opaque payload byte blob. -/
structure Graph where
  nodes : List Node
  payload : List Nat
deriving Repr, DecidableEq

/-! ## Binary serialization (model.Graph.Serialize / model.Deserialize) -/

/-- Little-endian encoding of a uint16 value (binary.Write LittleEndian). -/
def u16le (v : Nat) : List Nat := [v % 256, v / 256 % 256]

/-- Little-endian encoding of a uint32 value. -/
def u32le (v : Nat) : List Nat :=
  [v % 256, v / 256 % 256, v / 65536 % 256, v / 16777216 % 256]

/-- The 16-byte fixed node record written by Graph.Serialize: id, in, out,
kernel, uint8 topo length, flags, then the topology entries followed by
0xFFFF padding entries up to two slots. -/
def nodeBytes (n : Node) : List Nat :=
  u16le n.idn ++ u16le n.inOff ++ u16le n.outOff ++ [n.kernel % 256] ++
    [n.topo.length % 256] ++ u32le n.flags ++
    (n.topo.map u16le).flatten ++
    (List.replicate (2 - n.topo.length) (u16le 0xFFFF)).flatten

/-- Graph.Serialize: magic, version, node count, payload length, the node
records, zero padding up to a 32-byte boundary, then the payload bytes. -/
def serialize (g : Graph) : List Nat :=
  let pre := u32le 0x53554C42 ++ u16le 1 ++ u16le g.nodes.length ++
    u32le g.payload.length ++ (g.nodes.map nodeBytes).flatten
  pre ++ List.replicate (alignUp 32 pre.length - pre.length) 0 ++ g.payload

/-- binary.Read of one little-endian uint8 at position `p`
(errors when the reader is exhausted). -/
def readU8 (d : List Nat) (p : Nat) : Option (Nat × Nat) :=
  match d.drop p with
  | a :: _ => some (a, p + 1)
  | _ => none

/-- binary.Read of one little-endian uint16 at position `p`. -/
def readU16 (d : List Nat) (p : Nat) : Option (Nat × Nat) :=
  match d.drop p with
  | a :: b :: _ => some (a + 256 * b, p + 2)
  | _ => none

/-- binary.Read of one little-endian uint32 at position `p`. -/
def readU32 (d : List Nat) (p : Nat) : Option (Nat × Nat) :=
  match d.drop p with
  | a :: b :: c :: e :: _ => some (a + 256 * b + 65536 * c + 16777216 * e, p + 4)
  | _ => none

/-- One node record as parsed by Deserialize: the two topology slots are
always read; the first `min topoLen 2` of them are kept after filtering the
0xFFFF sentinel. -/
def parseNode (d : List Nat) (p : Nat) : Option (Node × Nat) :=
  match readU16 d p with
  | none => none
  | some (idn, p1) =>
    match readU16 d p1 with
    | none => none
    | some (inOff, p2) =>
      match readU16 d p2 with
      | none => none
      | some (outOff, p3) =>
        match readU8 d p3 with
        | none => none
        | some (kernel, p4) =>
          match readU8 d p4 with
          | none => none
          | some (topoLen, p5) =>
            match readU32 d p5 with
            | none => none
            | some (flags, p6) =>
              match readU16 d p6 with
              | none => none
              | some (slot0, p7) =>
                match readU16 d p7 with
                | none => none
                | some (slot1, p8) =>
                  let topo := (([slot0, slot1].take (min topoLen 2)).filter
                    (fun t => t ≠ 0xFFFF))
                  some (⟨idn, inOff, outOff, kernel, flags, topo⟩, p8)

/-- `count` node records in sequence. -/
def parseNodes (d : List Nat) : Nat → Nat → Option (List Node × Nat)
  | 0, p => some ([], p)
  | k + 1, p =>
    match parseNode d p with
    | none => none
    | some (n, p1) =>
      match parseNodes d k p1 with
      | none => none
      | some (ns, p2) => some (n :: ns, p2)

/-- model.Deserialize.  After the node records the reader seeks to the next
32-byte boundary and fills a `payloadSize` zero-initialized buffer with
whatever bytes remain (bytes.Reader.Read reports io.EOF — an error — only
when the position is already at or past the end; a short read is accepted
and leaves the zero tail in place). -/
def deserialize (d : List Nat) : Option Graph :=
  match readU32 d 0 with
  | none => none
  | some (magic, p1) =>
    if magic ≠ 0x53554C42 then none
    else
      match readU16 d p1 with
      | none => none
      | some (version, p2) =>
        if version ≠ 1 then none
        else
          match readU16 d p2 with
          | none => none
          | some (nodeCount, p3) =>
            match readU32 d p3 with
            | none => none
            | some (payloadSize, p4) =>
              match parseNodes d nodeCount p4 with
              | none => none
              | some (ns, p5) =>
                let p6 := alignUp 32 p5
                if d.length ≤ p6 then none
                else
                  let avail := (d.drop p6).take payloadSize
                  some ⟨ns, avail ++ List.replicate (payloadSize - avail.length) 0⟩

/-! ## Arena layout (runtime/arena.go) -/

/-- runtime.ArenaRegion: an offset/size pair inside the backing buffer. -/
structure ArenaRegion where
  offset : Nat
  size : Nat
deriving Repr, DecidableEq

/-- The region end, one past the last byte. -/
def ArenaRegion.stop (r : ArenaRegion) : Nat := r.offset + r.size

/-- The six regions of runtime.Arena, in layout order.  A region a layout
step skips (zero requested size) keeps the zero value `⟨0, 0⟩`, exactly as
the Go struct fields do. -/
structure ArenaLayout where
  modelPayload : ArenaRegion
  sublateMeta : ArenaRegion
  nodePayloads : ArenaRegion
  scratch : ArenaRegion
  streamingInput : ArenaRegion
  freeTail : ArenaRegion
deriving Repr, DecidableEq

/-- Inputs of layoutArenaRegions.  `sublateStructSize` stands for
unsafe.Sizeof(core.Sublate{}), a positive platform constant. -/
structure LayoutInputs where
  payloadLen : Nat
  numNodes : Nat
  sublateStructSize : Nat
  nodePayloadsSize : Nat
  scratchSize : Nat
  streamingInputSize : Nat
  totalSize : Nat
deriving Repr, DecidableEq

/-- layoutModelPayload: place an aligned region of aligned payload size. -/
def layoutModelPayload (payloadLen cur : Nat) : ArenaRegion × Nat :=
  if payloadLen = 0 then (⟨0, 0⟩, cur)
  else
    let off := alignedSize cur
    let rsz := alignedSize payloadLen
    (⟨off, rsz⟩, off + rsz)

/-- layoutSublateMetadata: one aligned struct slot per node. -/
def layoutSublateMetadata (numNodes structSize cur : Nat) : ArenaRegion × Nat :=
  if numNodes = 0 then (⟨0, 0⟩, cur)
  else
    let sz := numNodes * alignedSize structSize
    let off := alignedSize cur
    (⟨off, sz⟩, off + sz)

/-- layoutNodePayloads / layoutScratchBuffers / layoutStreamingInput all
place a caller-sized region at the next aligned offset. -/
def layoutSized (regionSize cur : Nat) : ArenaRegion × Nat :=
  if regionSize = 0 then (⟨0, 0⟩, cur)
  else
    let off := alignedSize cur
    (⟨off, regionSize⟩, off + regionSize)

/-- layoutFreeTail: the remainder up to the effective total size. -/
def layoutFreeTail (totalSize cur : Nat) : ArenaRegion × Nat :=
  let off := alignedSize cur
  let sz := totalSize - off
  (⟨off, sz⟩, off + sz)

/-- layoutArenaRegions: the six regions in order; fails when the layout
runs past the effective total size. -/
def layoutArenaRegions (inp : LayoutInputs) : Option ArenaLayout :=
  let (mp, c1) := layoutModelPayload inp.payloadLen 0
  let (sm, c2) := layoutSublateMetadata inp.numNodes inp.sublateStructSize c1
  let (np, c3) := layoutSized inp.nodePayloadsSize c2
  let (sc, c4) := layoutSized inp.scratchSize c3
  let (st, c5) := layoutSized inp.streamingInputSize c4
  let (ft, c6) := layoutFreeTail inp.totalSize c5
  if inp.totalSize < c6 then none
  else some ⟨mp, sm, np, sc, st, ft⟩

/-! ## Node payload bump allocator (Arena.AllocateNodePayload) -/

/-- The allocator state: the NodePayloads region and the bump cursor
(Arena.currentNodePayloadOffset), which starts at the region offset. -/
structure NodePayloadState where
  region : ArenaRegion
  cursor : Nat
deriving Repr, DecidableEq

/-- Arena.AllocateNodePayload.  Returns the start offset of the reserved
`size`-byte slice together with the post-state; on failure the state is
returned unchanged (the Go method returns before touching the cursor).
A zero alignment falls back to DefaultAlignment = 8.  For the power-of-two
alignments the callers pass, Go's mask `(c + a - 1) &^ (a - 1)` is the
round-up `alignUp`. -/
def allocateNodePayload (a : NodePayloadState) (size alignment : Nat) :
    Except String Nat × NodePayloadState :=
  if a.region.size = 0 then (.error "no node payloads region defined", a)
  else
    let al := if alignment = 0 then 8 else alignment
    let alignedOffset := alignUp al a.cursor
    if a.region.offset + a.region.size < alignedOffset + size then
      (.error "node payloads region exhausted", a)
    else
      (.ok alignedOffset, ⟨a.region, alignedOffset + size⟩)

/-- Run a sequence of allocation requests `(size, alignment)`, collecting
the successfully returned slices as `(start, size, alignment)` triples.
Failed requests leave the state as they found it and the sequence goes on. -/
def runAllocs (a : NodePayloadState) :
    List (Nat × Nat) → List (Nat × Nat × Nat) × NodePayloadState
  | [] => ([], a)
  | (sz, al) :: rest =>
    match allocateNodePayload a sz al with
    | (.error _, a1) => runAllocs a1 rest
    | (.ok start, a1) =>
      let (l, a2) := runAllocs a1 rest
      ((start, sz, al) :: l, a2)

/-! ## Kernel dispatch (kernels/ops.go) and sublates (core/sublate.go) -/

/-- Which slots of kernels.Catalog hold a function: the var initializer and
the package init() register exactly opcodes 0x00 (no-op) through 0x0C
(batch-norm); every other slot stays nil. -/
def catalogRegistered (op : Nat) : Bool := op ≤ 0x0C

/-- kernels.noop: the empty function body leaves the buffer untouched. -/
def noopKernel : List Nat → List Nat := fun data => data

/-- kernels.GetKernel, parametrized by the bodies `impl` of the registered
kernels.  The non-noop bodies reinterpret bytes as float32 lanes and are
not byte-level statable; every theorem below either never consults them or
fixes `impl 0 = noopKernel`, the source semantics of the only kernel it
dispatches.  Occupancy (`catalogRegistered`) is taken from the source. -/
def getKernel (impl : Nat → List Nat → List Nat) (op : Nat) :
    Option (List Nat → List Nat) :=
  if catalogRegistered op then some (impl op) else none

/-- The all-noop instantiation used to close concrete statements. -/
def noopImpl : Nat → List Nat → List Nat := fun _ => noopKernel

/-- core.Sublate: the live node state with dual buffers. -/
structure Sublate where
  kernelID : Nat
  flags : Nat
  topology : List Nat
  prev : List Nat
  prop : List Nat
deriving Repr, DecidableEq

/-- core.Sublate.SwapBuffers. -/
def swapBuffers (s : Sublate) : Sublate :=
  { s with prev := s.prop, prop := s.prev }

/-- runtime.calculateNodePayloadSize: the `Out - In` span when positive,
else the 256-byte default fallback. -/
def calculateNodePayloadSize (n : Node) : Nat :=
  if n.inOff < n.outOff then n.outOff - n.inOff else 256

/-- Engine.initializeSublateFields / allocateSublatePayloads /
copyInitialPayloadData for one node.  The two buffers are fresh
`alignedSize`-byte slices bump-allocated from the zero-initialized arena
(disjointness and zero fill are the allocator guarantees proved below),
and when the model payload is non-empty and `Out > In` the slice
`payload[In:Out]` is copied into the head of `prev`, truncated to the
buffer length (both branches of the Go copy reduce to Go's min-copy). -/
def initSublate (payload : List Nat) (n : Node) : Sublate :=
  let asize := alignedSize (calculateNodePayloadSize n)
  let prev0 : List Nat := List.replicate asize 0
  let prev :=
    if 0 < payload.length ∧ n.inOff < n.outOff then
      goCopy prev0 ((payload.drop n.inOff).take (n.outOff - n.inOff))
    else prev0
  { kernelID := n.kernel, flags := n.flags, topology := n.topo,
    prev := prev, prop := List.replicate asize 0 }

/-- Engine.initializeSublates over the whole graph. -/
def initializeSublates (g : Graph) : List Sublate :=
  g.nodes.map (initSublate g.payload)

/-- Engine.executeSublate: look the opcode up with kernels.GetKernel; a nil
entry is an unknown-kernel-ID error (returned before anything is touched),
otherwise the kernel runs in place on the prop buffer. -/
def executeSublate (impl : Nat → List Nat → List Nat) (s : Sublate) :
    Except String Unit × Sublate :=
  match getKernel impl s.kernelID with
  | none => (.error "unknown kernel ID", s)
  | some f => (.ok (), { s with prop := f s.prop })

/-- Engine.Run / Engine.runSequentialExecution: execute each sublate in
list order, swapping its buffers after a successful dispatch; the first
dispatch error stops the pass, leaving that sublate and its successors
untouched (earlier sublates keep their executed, swapped state). -/
def runSequentialExecution (impl : Nat → List Nat → List Nat) :
    List Sublate → Except String Unit × List Sublate
  | [] => (.ok (), [])
  | s :: rest =>
    match executeSublate impl s with
    | (.error e, s1) => (.error e, s1 :: rest)
    | (.ok _, s1) =>
      let s2 := swapBuffers s1
      let (r, rest1) := runSequentialExecution impl rest
      (r, s2 :: rest1)

/-! ## Streaming execution path (part of runtime engine) -/

/-- The engine-local kernelCatalog of the streaming path: its init()
fills every one of the 256 slots with a noop, and nothing in the
repository ever replaces an entry, so lookup never yields nil and every
entry is the identity. -/
def kernelCatalogEntry (_op : Nat) : List Nat → List Nat := fun data => data

/-- One node subtask of Engine.worker: dispatch the engine-local catalog
entry against the raw arena buffer at offset `Out` (bounds-checked). -/
def workerNodeStep (buffer : List Nat) (n : Node) : List Nat :=
  let kernel := kernelCatalogEntry n.kernel
  if n.outOff < buffer.length then
    buffer.take n.outOff ++ kernel (buffer.drop n.outOff)
  else buffer

/-- Engine.worker on one task group: all subtasks mutate the shared arena
buffer; as every catalog entry is a no-op the interleaving is immaterial
and the group is modelled as a fold in node order. -/
def workerGroupRun (buffer : List Nat) (g : List Node) : List Nat :=
  g.foldl workerNodeStep buffer

/-- Engine.runStreaming: the task groups released by the scheduler are
processed by the worker pool; the net effect on the arena buffer. -/
def runStreamingPass (buffer : List Nat) (groups : List (List Node)) : List Nat :=
  groups.foldl workerGroupRun buffer

/-! ## Streaming input window (Arena.WriteToStreamingInput, Engine.ExecuteStreaming) -/

/-- The streaming-relevant engine state: the configuration flag, the
StreamingInput region size with its window bytes, and the sublates. -/
structure StreamEngine where
  streaming : Bool
  streamingSize : Nat
  window : List Nat
  sublates : List Sublate
deriving Repr, DecidableEq

/-- The errors Engine.ExecuteStreaming can surface. -/
inductive StreamError where
  | notConfigured
  | noRegion
  | overflow
  | runFailure (e : String)
deriving Repr, DecidableEq

/-- Arena.WriteToStreamingInput: fails when no region is defined or the
data exceeds the window size, otherwise copies the data into the window
head. -/
def writeToStreamingInput (st : StreamEngine) (data : List Nat) :
    Except StreamError Unit × StreamEngine :=
  if st.streamingSize = 0 then (.error .noRegion, st)
  else if st.streamingSize < data.length then (.error .overflow, st)
  else (.ok (), { st with window := goCopy st.window data })

/-- Engine.ExecuteStreaming: reject non-streaming engines, write the input
into the window, run one sequential pass, then copy up to `|output|` bytes
of sublate 0's prop buffer into the output.  Every error is returned with
the state at the point of failure. -/
def executeStreaming (impl : Nat → List Nat → List Nat) (st : StreamEngine)
    (input output : List Nat) :
    Except StreamError (List Nat) × StreamEngine :=
  if ¬ st.streaming then (.error .notConfigured, st)
  else
    match writeToStreamingInput st input with
    | (.error e, st1) => (.error e, st1)
    | (.ok _, st1) =>
      match runSequentialExecution impl st1.sublates with
      | (.error e, subs) => (.error (.runFailure e), { st1 with sublates := subs })
      | (.ok _, subs) =>
        let st2 := { st1 with sublates := subs }
        match subs with
        | [] => (.ok output, st2)
        | s0 :: _ => (.ok (goCopy output s0.prop), st2)

/-! ## Stream scheduler (StreamScheduler.buildDependencies / createTaskGroups) -/

/-- First-match association lookup, the shape of a Go map read. -/
def lookupMemo : List (Nat × Nat) → Nat → Option Nat
  | [], _ => none
  | (k, v) :: rest, n => if k = n then some v else lookupMemo rest n

/-- StreamScheduler.buildDependencies: deps[id] is the concatenation of the
Topo lists of the nodes carrying that id (a map read of an absent id gives
the empty list, as in Go). -/
def buildDeps (ns : List Node) : Nat → List Nat :=
  fun i => ((ns.filter (fun n => n.idn = i)).foldl (fun acc n => acc ++ n.topo) [])

/-- calculateLevel from createTaskGroups.  `memo` is the shared nodeLevels
map (threaded through and returned); `vis` is the visit-in-progress marker
set, which Go deletes from on exit — modelled by passing it downward only.
An in-progress node reports level 0; the level is otherwise one more than
the maximum recursive dependency level (`maxDepLevel` starts at -1 in Go,
so the empty fold gives 0).  Go recurses unboundedly; `fuel` bounds the
recursion depth and every theorem quantifies over sufficient fuel. -/
def calcLevel (deps : Nat → List Nat) :
    Nat → Nat → List (Nat × Nat) → List Nat → Nat × List (Nat × Nat)
  | 0, _, memo, _ => (0, memo)
  | fuel + 1, n, memo, vis =>
    match lookupMemo memo n with
    | some l => (l, memo)
    | none =>
      if n ∈ vis then (0, memo)
      else
        let r := (deps n).foldl
          (fun (acc : Nat × List (Nat × Nat)) d =>
            let p := calcLevel deps fuel d acc.2 (n :: vis)
            (max acc.1 (p.1 + 1), p.2))
          (0, memo)
        (r.1, (n, r.1) :: r.2)

/-- The plain (memo-free) level recurrence of calculateLevel: one more
than the maximum recursive dependency level, zero for no dependencies,
bounded by fuel.  On acyclic dependency maps this stabilizes once the fuel
exceeds the dependency depth and the memoized computation agrees with it
(proved below). -/
def naiveLevel (deps : Nat → List Nat) : Nat → Nat → Nat
  | 0, _ => 0
  | fuel + 1, n => (deps n).foldl (fun a d => max a (naiveLevel deps fuel d + 1)) 0

/-- The nodeLevels map after createTaskGroups has called calculateLevel on
every node of the graph in order (the memo persists across calls, the
in-progress set is empty at each top-level call). -/
def computeLevels (ns : List Node) (fuel : Nat) : List (Nat × Nat) :=
  ns.foldl (fun memo n => (calcLevel (buildDeps ns) fuel n.idn memo []).2) []

/-- The level createTaskGroups assigns to an id: the memoized value (the
level returned for a node equals its final map entry, since entries are
never overwritten). -/
def levelOf (ns : List Node) (fuel : Nat) (i : Nat) : Nat :=
  (lookupMemo (computeLevels ns fuel) i).getD 0

/-- The `originalNode` scan of createTaskGroups: the first node of the
graph carrying the given id (the scan always finds one since it is run for
an id of a graph node). -/
def firstWithId (ns : List Node) (n : Node) : Node :=
  (ns.find? (fun m => m.idn = n.idn)).getD n

/-- createTaskGroups: one task group per occupied level `0..maxLevel`, in
ascending level order, each listing (the first node carrying the id of)
every node assigned that level, in graph order.  Construction is total:
NewStreamScheduler has no error path. -/
def createTaskGroups (ns : List Node) (fuel : Nat) : List (Nat × List Node) :=
  let lvl := fun (n : Node) => levelOf ns fuel n.idn
  let maxLevel := ns.foldl (fun m n => max m (lvl n)) 0
  (List.range (maxLevel + 1)).filterMap (fun i =>
    let g := (ns.filter (fun n => lvl n = i)).map (firstWithId ns)
    if g.isEmpty then none else some (i, g))

/-- A positive power of two, as a Boolean check.  Go's cursor mask
`(c + a - 1) &^ (a - 1)` equals the round-up `alignUp a c` exactly for
these alignments, which are the only ones arena callers pass. -/
def isPow2 (n : Nat) : Bool := n ≠ 0 && n &&& (n - 1) = 0

/-- The layout facts claimed for an arena construction: offsets strictly
increasing in layout order, consecutive regions disjoint (the end of one
at most the offset of the next, which with the strict ordering makes the
six regions pairwise disjoint), every offset 32-byte aligned, and the last
region ending within the backing buffer (whose length is the effective
total size). -/
def arenaLayoutOrdered (inp : LayoutInputs) (L : ArenaLayout) : Prop :=
  (L.modelPayload.offset < L.sublateMeta.offset ∧
   L.sublateMeta.offset < L.nodePayloads.offset ∧
   L.nodePayloads.offset < L.scratch.offset ∧
   L.scratch.offset < L.streamingInput.offset ∧
   L.streamingInput.offset < L.freeTail.offset) ∧
  (L.modelPayload.stop ≤ L.sublateMeta.offset ∧
   L.sublateMeta.stop ≤ L.nodePayloads.offset ∧
   L.nodePayloads.stop ≤ L.scratch.offset ∧
   L.scratch.stop ≤ L.streamingInput.offset ∧
   L.streamingInput.stop ≤ L.freeTail.offset) ∧
  (L.modelPayload.offset % 32 = 0 ∧ L.sublateMeta.offset % 32 = 0 ∧
   L.nodePayloads.offset % 32 = 0 ∧ L.scratch.offset % 32 = 0 ∧
   L.streamingInput.offset % 32 = 0 ∧ L.freeTail.offset % 32 = 0) ∧
  L.freeTail.stop ≤ inp.totalSize

instance (inp : LayoutInputs) (L : ArenaLayout) : Decidable (arenaLayoutOrdered inp L) := by
  unfold arenaLayoutOrdered
  infer_instance

/-- What the claim asserts of a request sequence: every slice handed out is
aligned to its (defaulted) requested alignment, lies inside the region, and
the slices are pairwise disjoint, in cursor order.  Each triple records
`(start, size, alignment)` of one successful call; the slice is
`[start, start + size)`, of exactly the requested length by construction. -/
def allocSequenceOk (a0 : NodePayloadState) (reqs : List (Nat × Nat)) : Prop :=
  (∀ t ∈ (runAllocs a0 reqs).1,
     t.1 % (if t.2.2 = 0 then 8 else t.2.2) = 0 ∧
     a0.region.offset ≤ t.1 ∧ t.1 + t.2.1 ≤ a0.region.stop) ∧
  (runAllocs a0 reqs).1.Pairwise (fun x y => x.1 + x.2.1 ≤ y.1)

/-- What the claim asserts of a failing call: an exhausted allocation
returns its error without touching the cursor (the whole state is
unchanged), and any call whose aligned request fits the region succeeds —
in particular a smaller allocation straight after a failure. -/
def allocFailureBehavior : Prop :=
  (∀ (a : NodePayloadState) (sz al : Nat) (e : String),
     (allocateNodePayload a sz al).1 = .error e →
     (allocateNodePayload a sz al).2 = a) ∧
  (∀ (a : NodePayloadState) (sz al : Nat), 0 < a.region.size →
     alignUp (if al = 0 then 8 else al) a.cursor + sz ≤ a.region.stop →
     (allocateNodePayload a sz al).1 = .ok (alignUp (if al = 0 then 8 else al) a.cursor))

/-! ## Concrete instances used by witnesses -/

/-- A bump allocator over the `[192, 320)` node-payloads region, cursor at
the region start. -/
def allocExampleState : NodePayloadState := ⟨⟨192, 128⟩, 192⟩

/-- Four allocation requests; the third exhausts the region and fails, the
fourth is smaller and succeeds again. -/
def allocExampleReqs : List (Nat × Nat) := [(64, 64), (48, 16), (64, 64), (16, 8)]

/-- A concrete arena construction: 16 payload bytes, one node, an 80-byte
sublate struct, 128/64/32-byte node-payload, scratch and streaming regions
in a 1024-byte arena. -/
def layoutExampleInputs : LayoutInputs := ⟨16, 1, 80, 128, 64, 32, 1024⟩

/-- The region table layoutArenaRegions produces for
`layoutExampleInputs`. -/
def layoutExampleRegions : ArenaLayout :=
  ⟨⟨0, 64⟩, ⟨64, 128⟩, ⟨192, 128⟩, ⟨320, 64⟩, ⟨384, 32⟩, ⟨448, 576⟩⟩

/-- The S1 scenario node: id 0, opcode 0x00, in 0, out 16, flags 0. -/
def s1Node : Node := ⟨0, 0, 16, 0, 0, []⟩

/-- The S1 scenario payload: 16 bytes of 0xAA. -/
def s1Payload : List Nat := List.replicate 16 0xAA

/-- The S4 cycle: node 0 depends on node 1 and vice versa. -/
def cycleNodes : List Node := [⟨0, 0, 0, 0, 0, [1]⟩, ⟨1, 0, 0, 0, 0, [0]⟩]

/-- The S3 diamond: 1 and 2 depend on 0, 3 depends on 1 and 2. -/
def diamondNodes : List Node :=
  [⟨0, 0, 0, 0, 0, []⟩, ⟨1, 0, 0, 0, 0, [0]⟩, ⟨2, 0, 0, 0, 0, [0]⟩,
   ⟨3, 0, 0, 0, 0, [1, 2]⟩]

/-- A byte sequence the deserializer accepts whose unused topology slot
holds the non-sentinel value 5 (at offset 24): one node with topoLen 0 and
a 1-byte payload. -/
def staleSlotBytes : List Nat :=
  [0x42, 0x4C, 0x55, 0x53, 1, 0, 1, 0, 1, 0, 0, 0,
   0, 0, 0, 0, 0, 0, 0, 0, 0, 0, 0, 0, 5, 0, 255, 255,
   0, 0, 0, 0, 0x42]

/-- The graph the deserializer parses from `staleSlotBytes`. -/
def staleSlotGraph : Graph := ⟨[⟨0, 0, 0, 0, 0, []⟩], [0x42]⟩

/-- The value bounds under which every Graph field survives its serialized
width, each node has at most two topology entries none of which is the
0xFFFF sentinel, and the payload is non-empty (an empty payload makes the
deserializer's final read hit io.EOF and fail). -/
def wellFormedGraph (g : Graph) : Prop :=
  g.nodes.length < 65536 ∧ 0 < g.payload.length ∧ g.payload.length < 4294967296 ∧
  ∀ n ∈ g.nodes, n.idn < 65536 ∧ n.inOff < 65536 ∧ n.outOff < 65536 ∧
    n.kernel < 256 ∧ n.flags < 4294967296 ∧ n.topo.length ≤ 2 ∧
    ∀ t ∈ n.topo, t < 65536 ∧ t ≠ 0xFFFF

instance (g : Graph) : Decidable (wellFormedGraph g) := by
  unfold wellFormedGraph
  infer_instance

/-- A two-node graph with a dependency edge and a 3-byte payload, used to
witness the serializer round trip. -/
def roundtripExampleGraph : Graph :=
  ⟨[⟨3, 1, 2, 7, 9, [1]⟩, ⟨1, 0, 0, 0, 0, []⟩], [9, 9, 9]⟩

/-- The S5 streaming engine: configured for streaming, a 32-byte
StreamingInput window, no sublates. -/
def s5Engine : StreamEngine := ⟨true, 32, List.replicate 32 0, []⟩

/-! ## Helper lemmas -/

theorem le_alignUp (a n : Nat) (ha : 0 < a) : n ≤ alignUp a n := by
  unfold alignUp
  have h1 : n + a - 1 + 1 ≤ n + a := by omega
  have h2 : n + a - 1 < (n + a - 1) / a * a + a := Nat.lt_div_mul_add ha
  omega

theorem alignUp_lt (a n : Nat) (ha : 0 < a) : alignUp a n < n + a := by
  unfold alignUp
  have h2 : (n + a - 1) / a * a ≤ n + a - 1 := Nat.div_mul_le_self _ _
  omega

theorem alignUp_mod (a n : Nat) : alignUp a n % a = 0 := by
  unfold alignUp
  simp [Nat.mul_mod_left]

theorem alignUp_dvd (a n : Nat) : a ∣ alignUp a n := by
  exact Nat.dvd_of_mod_eq_zero (alignUp_mod a n)

theorem alignUp_eq_of_dvd (a n : Nat) (ha : 0 < a) (h : a ∣ n) : alignUp a n = n := by
  obtain ⟨k, rfl⟩ := h
  unfold alignUp
  have he : a * k + a - 1 = a * k + (a - 1) := by omega
  rw [he, Nat.mul_add_div ha, Nat.div_eq_of_lt (by omega), Nat.add_zero, Nat.mul_comm]

theorem alignedSize_mod32 (n : Nat) : alignedSize n % 32 = 0 := by
  have h := alignUp_mod 64 n
  unfold alignedSize at *
  omega

theorem goCopy_length (dst src : List Nat) : (goCopy dst src).length = dst.length := by
  unfold goCopy
  simp [List.length_take, List.length_drop]

theorem goCopy_of_le (dst src : List Nat) (h : src.length ≤ dst.length) :
    goCopy dst src = src ++ dst.drop src.length := by
  unfold goCopy
  rw [Nat.min_eq_right h, List.take_length]

theorem allocateNodePayload_error_state (a : NodePayloadState) (sz al : Nat) (e : String)
    (h : (allocateNodePayload a sz al).1 = .error e) :
    (allocateNodePayload a sz al).2 = a := by
  by_cases h0 : a.region.size = 0
  · simp [allocateNodePayload, h0]
  · by_cases h1 : a.region.offset + a.region.size < alignUp (if al = 0 then 8 else al) a.cursor + sz
    · simp [allocateNodePayload, h0, h1]
    · simp [allocateNodePayload, h0, h1] at h

theorem allocateNodePayload_ok_state (a : NodePayloadState) (sz al start : Nat)
    (a1 : NodePayloadState)
    (h : allocateNodePayload a sz al = (.ok start, a1)) :
    a.region.size ≠ 0 ∧
    start = alignUp (if al = 0 then 8 else al) a.cursor ∧
    a1 = ⟨a.region, start + sz⟩ ∧
    start + sz ≤ a.region.offset + a.region.size := by
  by_cases h0 : a.region.size = 0
  · simp [allocateNodePayload, h0] at h
  · by_cases h1 : a.region.offset + a.region.size < alignUp (if al = 0 then 8 else al) a.cursor + sz
    · simp [allocateNodePayload, h0, h1] at h
    · simp [allocateNodePayload, h0, h1] at h
      obtain ⟨rfl, rfl⟩ := h
      exact ⟨h0, rfl, rfl, by omega⟩

theorem allocateNodePayload_ok_of_fits (a : NodePayloadState) (sz al : Nat)
    (hsz : 0 < a.region.size)
    (hfit : alignUp (if al = 0 then 8 else al) a.cursor + sz ≤ a.region.offset + a.region.size) :
    (allocateNodePayload a sz al).1 = .ok (alignUp (if al = 0 then 8 else al) a.cursor) := by
  have h0 : ¬ (a.region.size = 0) := by omega
  have h1 : ¬ (a.region.offset + a.region.size <
      alignUp (if al = 0 then 8 else al) a.cursor + sz) := by omega
  simp [allocateNodePayload, h0, h1]

theorem runAllocs_invariant (reqs : List (Nat × Nat)) :
    ∀ (a : NodePayloadState), a.region.offset ≤ a.cursor →
    (runAllocs a reqs).2.region = a.region ∧
    a.cursor ≤ (runAllocs a reqs).2.cursor ∧
    (∀ t ∈ (runAllocs a reqs).1,
      a.cursor ≤ t.1 ∧
      t.1 % (if t.2.2 = 0 then 8 else t.2.2) = 0 ∧
      a.region.offset ≤ t.1 ∧
      t.1 + t.2.1 ≤ a.region.offset + a.region.size) ∧
    (runAllocs a reqs).1.Pairwise (fun x y => x.1 + x.2.1 ≤ y.1) := by
  induction reqs with
  | nil => intro a ha; simp [runAllocs]
  | cons hd rest ih =>
    obtain ⟨sz, al⟩ := hd
    intro a ha
    rcases hall : allocateNodePayload a sz al with ⟨r, a1⟩
    cases r with
    | error e =>
      have hst : a1 = a := by
        have h2 := allocateNodePayload_error_state a sz al e (by rw [hall])
        rw [hall] at h2; exact h2
      have hrw : runAllocs a ((sz, al) :: rest) = runAllocs a rest := by
        rw [runAllocs, hall, hst]
      rw [hrw]
      exact ih a ha
    | ok start =>
      obtain ⟨hsz, hstart, hst, hfit⟩ := allocateNodePayload_ok_state a sz al start a1 hall
      have hreg1 : a1.region = a.region := by rw [hst]
      have hcur1 : a1.cursor = start + sz := by rw [hst]
      have halign : (if al = 0 then 8 else al) > 0 := by
        split
        · omega
        · next hne => omega
      have hcs : a.cursor ≤ start := hstart ▸ le_alignUp _ _ halign
      have hmod : start % (if al = 0 then 8 else al) = 0 := hstart ▸ alignUp_mod _ _
      have ha1 : a1.region.offset ≤ a1.cursor := by rw [hreg1, hcur1]; omega
      obtain ⟨ihreg, ihcur, ihmem, ihpw⟩ := ih a1 ha1
      rw [hreg1] at ihreg
      rw [hcur1] at ihcur
      simp only [hreg1, hcur1] at ihmem
      have hrw1 : (runAllocs a ((sz, al) :: rest)).1 =
          (start, sz, al) :: (runAllocs a1 rest).1 := by
        rw [runAllocs, hall]
      have hrw2 : (runAllocs a ((sz, al) :: rest)).2 = (runAllocs a1 rest).2 := by
        rw [runAllocs, hall]
      rw [hrw1, hrw2]
      refine ⟨ihreg, by omega, ?_, ?_⟩
      · intro t ht
        rcases List.mem_cons.mp ht with rfl | ht'
        · exact ⟨hcs, hmod, show a.region.offset ≤ start by omega, hfit⟩
        · obtain ⟨m1, m2, m3, m4⟩ := ihmem t ht'
          exact ⟨by omega, m2, by omega, m4⟩
      · refine List.pairwise_cons.mpr ⟨?_, ihpw⟩
        intro t ht
        have hm := (ihmem t ht).1
        show start + sz ≤ t.1
        omega

theorem workerNodeStep_id (buffer : List Nat) (n : Node) :
    workerNodeStep buffer n = buffer := by
  unfold workerNodeStep kernelCatalogEntry
  split
  · exact List.take_append_drop _ _
  · rfl

theorem workerGroupRun_id (buffer : List Nat) (g : List Node) :
    workerGroupRun buffer g = buffer := by
  unfold workerGroupRun
  induction g with
  | nil => rfl
  | cons hd tl ih => rw [List.foldl_cons, workerNodeStep_id]; exact ih

theorem runStreamingPass_id (buffer : List Nat) (groups : List (List Node)) :
    runStreamingPass buffer groups = buffer := by
  unfold runStreamingPass
  induction groups with
  | nil => rfl
  | cons hd tl ih => rw [List.foldl_cons, workerGroupRun_id]; exact ih

theorem parseNode_topo (d : List Nat) (p p' : Nat) (n : Node)
    (h : parseNode d p = some (n, p')) :
    n.topo.length ≤ 2 ∧ 0xFFFF ∉ n.topo := by
  unfold parseNode at h
  repeat' (split at h; try (exact absurd h (by simp)))
  obtain ⟨hn, hp⟩ := Prod.mk.injEq .. ▸ Option.some.inj h
  subst hn
  constructor
  · refine le_trans (List.length_filter_le _ _) ?_
    simp only [List.length_take, List.length_cons, List.length_nil]
    omega
  · intro hmem
    exact absurd (List.mem_filter.mp hmem).2 (by simp)

theorem parseNodes_topo (d : List Nat) :
    ∀ (k p p' : Nat) (ns : List Node), parseNodes d k p = some (ns, p') →
      ∀ n ∈ ns, n.topo.length ≤ 2 ∧ 0xFFFF ∉ n.topo := by
  intro k
  induction k with
  | zero =>
    intro p p' ns h
    unfold parseNodes at h
    obtain ⟨hn, hp⟩ := Prod.mk.injEq .. ▸ Option.some.inj h
    subst hn
    intro n hn
    exact absurd hn (by simp)
  | succ k ih =>
    intro p p' ns h
    unfold parseNodes at h
    split at h
    · exact absurd h (by simp)
    · next n1 p1 hpn =>
      split at h
      · exact absurd h (by simp)
      · next ns2 p2 hpns =>
        obtain ⟨hn, hp⟩ := Prod.mk.injEq .. ▸ Option.some.inj h
        subst hn
        intro n hn
        rcases List.mem_cons.mp hn with rfl | hmem
        · exact parseNode_topo d p p1 n hpn
        · exact ih p1 p2 ns2 hpns n hmem

theorem drop_succ_of_drop (d tail : List Nat) (p b : Nat) (hd : d.drop p = b :: tail) :
    d.drop (p + 1) = tail := by
  have h2 : d.drop (p + 1) = (d.drop p).drop 1 := (List.drop_drop 1 p d).symm
  rw [h2, hd]
  rfl

theorem readU8_step (d tail : List Nat) (p b : Nat) (hd : d.drop p = b :: tail) :
    readU8 d p = some (b, p + 1) ∧ d.drop (p + 1) = tail := by
  constructor
  · unfold readU8
    rw [hd]
  · exact drop_succ_of_drop d tail p b hd

theorem readU16_step (d tail : List Nat) (p v : Nat) (hv : v < 65536)
    (hd : d.drop p = u16le v ++ tail) :
    readU16 d p = some (v, p + 2) ∧ d.drop (p + 2) = tail := by
  have hu : u16le v ++ tail = v % 256 :: (v / 256 % 256 :: tail) := rfl
  rw [hu] at hd
  have h1 := drop_succ_of_drop d _ p _ hd
  have h2 := drop_succ_of_drop d _ (p + 1) _ h1
  constructor
  · unfold readU16
    rw [hd]
    show some (v % 256 + 256 * (v / 256 % 256), p + 2) = some (v, p + 2)
    have hval : v % 256 + 256 * (v / 256 % 256) = v := by omega
    rw [hval]
  · have : p + 2 = p + 1 + 1 := by omega
    rw [this]
    exact h2

theorem readU32_step (d tail : List Nat) (p v : Nat) (hv : v < 4294967296)
    (hd : d.drop p = u32le v ++ tail) :
    readU32 d p = some (v, p + 4) ∧ d.drop (p + 4) = tail := by
  have hu : u32le v ++ tail =
      v % 256 :: (v / 256 % 256 :: (v / 65536 % 256 :: (v / 16777216 % 256 :: tail))) := rfl
  rw [hu] at hd
  have h1 := drop_succ_of_drop d _ p _ hd
  have h2 := drop_succ_of_drop d _ (p + 1) _ h1
  have h3 := drop_succ_of_drop d _ (p + 1 + 1) _ h2
  have h4 := drop_succ_of_drop d _ (p + 1 + 1 + 1) _ h3
  constructor
  · unfold readU32
    rw [hd]
    show some (v % 256 + 256 * (v / 256 % 256) + 65536 * (v / 65536 % 256) +
      16777216 * (v / 16777216 % 256), p + 4) = some (v, p + 4)
    have hval : v % 256 + 256 * (v / 256 % 256) + 65536 * (v / 65536 % 256) +
        16777216 * (v / 16777216 % 256) = v := by omega
    rw [hval]
  · have : p + 4 = p + 1 + 1 + 1 + 1 := by omega
    rw [this]
    exact h4

theorem parseNode_step (d tail : List Nat) (p : Nat) (n : Node)
    (h1 : n.idn < 65536) (h2 : n.inOff < 65536) (h3 : n.outOff < 65536)
    (h4 : n.kernel < 256) (h5 : n.flags < 4294967296) (h6 : n.topo.length ≤ 2)
    (h7 : ∀ t ∈ n.topo, t < 65536 ∧ t ≠ 0xFFFF)
    (hd : d.drop p = nodeBytes n ++ tail) :
    parseNode d p = some (n, p + 16) ∧ d.drop (p + 16) = tail := by
  rw [nodeBytes, Nat.mod_eq_of_lt h4, Nat.mod_eq_of_lt (by omega : n.topo.length < 256)] at hd
  simp only [List.append_assoc, List.singleton_append, List.cons_append] at hd
  obtain ⟨r1, hd1⟩ := readU16_step d _ p n.idn h1 hd
  obtain ⟨r2, hd2⟩ := readU16_step d _ (p + 2) n.inOff h2 hd1
  obtain ⟨r3, hd3⟩ := readU16_step d _ (p + 2 + 2) n.outOff h3 hd2
  obtain ⟨r4, hd4⟩ := readU8_step d _ (p + 2 + 2 + 2) n.kernel hd3
  obtain ⟨r5, hd5⟩ := readU8_step d _ (p + 2 + 2 + 2 + 1) n.topo.length hd4
  obtain ⟨r6, hd6⟩ := readU32_step d _ (p + 2 + 2 + 2 + 1 + 1) n.flags h5 hd5
  have hp16a : p + 2 + 2 + 2 + 1 + 1 + 4 + 2 + 2 = p + 16 := by omega
  rcases htp : n.topo with _ | ⟨a, _ | ⟨b, _ | ⟨c, rest⟩⟩⟩
  · rw [htp] at hd6 r5 h7
    have hsh : (List.map u16le ([] : List Nat)).flatten ++
        ((List.replicate (2 - ([] : List Nat).length) (u16le 0xFFFF)).flatten ++ tail) =
        u16le 0xFFFF ++ (u16le 0xFFFF ++ tail) := rfl
    rw [hsh] at hd6
    obtain ⟨r7, hd7⟩ := readU16_step d _ (p + 2 + 2 + 2 + 1 + 1 + 4) 0xFFFF (by norm_num) hd6
    obtain ⟨r8, hd8⟩ :=
      readU16_step d _ (p + 2 + 2 + 2 + 1 + 1 + 4 + 2) 0xFFFF (by norm_num) hd7
    constructor
    · simp only [parseNode, r1, r2, r3, r4, r5, r6, r7, r8]
      rw [hp16a]
      have htopo : (([0xFFFF, 0xFFFF].take (min ([] : List Nat).length 2)).filter
          (fun t => t ≠ 0xFFFF)) = ([] : List Nat) := by decide
      rw [htopo, ← htp]
    · rw [← hp16a]
      exact hd8
  · rw [htp] at hd6 r5 h7
    obtain ⟨ha1, ha2⟩ := h7 a (by exact List.mem_singleton_self a)
    have hsh : (List.map u16le [a]).flatten ++
        ((List.replicate (2 - [a].length) (u16le 0xFFFF)).flatten ++ tail) =
        u16le a ++ (u16le 0xFFFF ++ tail) := rfl
    rw [hsh] at hd6
    obtain ⟨r7, hd7⟩ := readU16_step d _ (p + 2 + 2 + 2 + 1 + 1 + 4) a ha1 hd6
    obtain ⟨r8, hd8⟩ :=
      readU16_step d _ (p + 2 + 2 + 2 + 1 + 1 + 4 + 2) 0xFFFF (by norm_num) hd7
    constructor
    · simp only [parseNode, r1, r2, r3, r4, r5, r6, r7, r8]
      rw [hp16a]
      have htopo : (([a, 0xFFFF].take (min [a].length 2)).filter
          (fun t => t ≠ 0xFFFF)) = [a] := by
        simp [ha2]
      rw [htopo, ← htp]
    · rw [← hp16a]
      exact hd8
  · rw [htp] at hd6 r5 h7
    obtain ⟨ha1, ha2⟩ := h7 a (by simp)
    obtain ⟨hb1, hb2⟩ := h7 b (by simp)
    have hsh : (List.map u16le [a, b]).flatten ++
        ((List.replicate (2 - [a, b].length) (u16le 0xFFFF)).flatten ++ tail) =
        u16le a ++ (u16le b ++ tail) := rfl
    rw [hsh] at hd6
    obtain ⟨r7, hd7⟩ := readU16_step d _ (p + 2 + 2 + 2 + 1 + 1 + 4) a ha1 hd6
    obtain ⟨r8, hd8⟩ := readU16_step d _ (p + 2 + 2 + 2 + 1 + 1 + 4 + 2) b hb1 hd7
    constructor
    · simp only [parseNode, r1, r2, r3, r4, r5, r6, r7, r8]
      rw [hp16a]
      have htopo : (([a, b].take (min [a, b].length 2)).filter
          (fun t => t ≠ 0xFFFF)) = [a, b] := by
        simp [ha2, hb2]
      rw [htopo, ← htp]
    · rw [← hp16a]
      exact hd8
  · rw [htp] at h6
    simp at h6

theorem flatten_map_u16le_length (ts : List Nat) :
    ((ts.map u16le).flatten).length = 2 * ts.length := by
  induction ts with
  | nil => rfl
  | cons a t ih =>
    simp only [List.map_cons, List.flatten_cons, List.length_append, ih, List.length_cons]
    simp [u16le]
    omega

theorem nodeBytes_length (n : Node) (h6 : n.topo.length ≤ 2) :
    (nodeBytes n).length = 16 := by
  rcases htp : n.topo with _ | ⟨a, _ | ⟨b, _ | ⟨c, rest⟩⟩⟩ <;>
    simp [nodeBytes, htp, u16le, u32le]
  rw [htp] at h6
  simp at h6

theorem records_length (ns : List Node) (h : ∀ n ∈ ns, n.topo.length ≤ 2) :
    ((ns.map nodeBytes).flatten).length = 16 * ns.length := by
  induction ns with
  | nil => rfl
  | cons n t ih =>
    simp only [List.map_cons, List.flatten_cons, List.length_append, List.length_cons]
    rw [nodeBytes_length n (h n (by simp)), ih (fun m hm => h m (by simp [hm]))]
    omega

theorem parseNodes_step (d : List Nat) (ns : List Node) :
    ∀ (tail : List Nat) (p : Nat),
    (∀ n ∈ ns, n.idn < 65536 ∧ n.inOff < 65536 ∧ n.outOff < 65536 ∧
      n.kernel < 256 ∧ n.flags < 4294967296 ∧ n.topo.length ≤ 2 ∧
      ∀ t ∈ n.topo, t < 65536 ∧ t ≠ 0xFFFF) →
    d.drop p = (ns.map nodeBytes).flatten ++ tail →
    parseNodes d ns.length p = some (ns, p + 16 * ns.length) ∧
    d.drop (p + 16 * ns.length) = tail := by
  induction ns with
  | nil =>
    intro tail p hb hd
    constructor
    · rfl
    · simpa using hd
  | cons n t ih =>
    intro tail p hb hd
    simp only [List.map_cons, List.flatten_cons, List.append_assoc] at hd
    obtain ⟨b1, b2, b3, b4, b5, b6, b7⟩ := hb n (by simp)
    obtain ⟨rn, hdn⟩ := parseNode_step d _ p n b1 b2 b3 b4 b5 b6 b7 hd
    obtain ⟨rt, hdt⟩ := ih _ (p + 16) (fun m hm => hb m (by simp [hm])) hdn
    constructor
    · have hlen : (n :: t).length = t.length + 1 := rfl
      rw [hlen]
      simp only [parseNodes, rn, rt]
      have : p + 16 + 16 * t.length = p + 16 * (t.length + 1) := by omega
      rw [this]
    · have : p + 16 * (n :: t).length = p + 16 + 16 * t.length := by
        simp [List.length_cons]
        omega
      rw [this]
      exact hdt

theorem foldl_congr_fn (l : List Nat) (f g : Nat → Nat → Nat)
    (h : ∀ b, ∀ d ∈ l, f b d = g b d) : ∀ a, l.foldl f a = l.foldl g a := by
  induction l with
  | nil => intro a; rfl
  | cons x t ih =>
    intro a
    rw [List.foldl_cons, List.foldl_cons, h a x (by simp)]
    exact ih (fun b d hd => h b d (by simp [hd])) _

theorem le_foldl_max {A : Type} (l : List A) (f : A → Nat) :
    ∀ a, (a ≤ l.foldl (fun a x => max a (f x)) a) ∧
      (∀ d ∈ l, f d ≤ l.foldl (fun a x => max a (f x)) a) := by
  induction l with
  | nil => intro a; exact ⟨le_refl _, by simp⟩
  | cons x t ih =>
    intro a
    rw [List.foldl_cons]
    obtain ⟨ih1, ih2⟩ := ih (max a (f x))
    constructor
    · exact le_trans (le_max_left _ _) ih1
    · intro d hd
      rcases List.mem_cons.mp hd with rfl | hd'
      · exact le_trans (le_max_right _ _) ih1
      · exact ih2 d hd'

theorem naive_stable (deps : Nat → List Nat) (rank : Nat → Nat)
    (H : ∀ i d, d ∈ deps i → rank d < rank i) :
    ∀ (r : Nat) (i : Nat), rank i = r → ∀ f f', rank i < f → rank i < f' →
      naiveLevel deps f i = naiveLevel deps f' i := by
  intro r
  induction r using Nat.strong_induction_on with
  | _ r ih =>
    intro i hr f f' hf hf'
    rcases f with _ | f
    · omega
    rcases f' with _ | f'
    · omega
    show (deps i).foldl (fun a d => max a (naiveLevel deps f d + 1)) 0 =
      (deps i).foldl (fun a d => max a (naiveLevel deps f' d + 1)) 0
    refine foldl_congr_fn (deps i) _ _ ?_ 0
    intro b d hd
    have hdr : rank d < rank i := H i d hd
    have : naiveLevel deps f d = naiveLevel deps f' d := by
      refine ih (rank d) (by omega) d rfl f f' ?_ ?_ <;> omega
    rw [this]

theorem naive_recurrence (deps : Nat → List Nat) (rank : Nat → Nat)
    (H : ∀ i d, d ∈ deps i → rank d < rank i) (i : Nat) :
    naiveLevel deps (rank i + 1) i =
      (deps i).foldl (fun a d => max a (naiveLevel deps (rank d + 1) d + 1)) 0 := by
  show (deps i).foldl (fun a d => max a (naiveLevel deps (rank i) d + 1)) 0 = _
  refine foldl_congr_fn _ _ _ ?_ 0
  intro b d hd
  have hst := naive_stable deps rank H (rank d) d rfl (rank i) (rank d + 1)
    (H i d hd) (by omega)
  rw [hst]

theorem calcLevel_correct (deps : Nat → List Nat) (rank : Nat → Nat)
    (H : ∀ i d, d ∈ deps i → rank d < rank i) :
    ∀ (f : Nat) (i : Nat) (memo : List (Nat × Nat)) (vis : List Nat),
      rank i < f → (∀ v ∈ vis, rank i < rank v) →
      (∀ k v, lookupMemo memo k = some v → v = naiveLevel deps (rank k + 1) k) →
      (calcLevel deps f i memo vis).1 = naiveLevel deps (rank i + 1) i ∧
      (∀ k v, lookupMemo (calcLevel deps f i memo vis).2 k = some v →
        v = naiveLevel deps (rank k + 1) k) ∧
      (∀ k v, lookupMemo memo k = some v →
        lookupMemo (calcLevel deps f i memo vis).2 k = some v) ∧
      lookupMemo (calcLevel deps f i memo vis).2 i =
        some (naiveLevel deps (rank i + 1) i) := by
  intro f
  induction f with
  | zero => intro i memo vis hf; omega
  | succ f ih =>
    intro i memo vis hf hvis hinv
    rcases hm : lookupMemo memo i with _ | l
    · have hni : i ∉ vis := fun hin => absurd (hvis i hin) (lt_irrefl _)
      have foldlem : ∀ (ds : List Nat),
          (∀ d ∈ ds, rank d < f ∧ ∀ v ∈ i :: vis, rank d < rank v) →
          ∀ (a0 : Nat) (memo0 : List (Nat × Nat)),
          (∀ k v, lookupMemo memo0 k = some v → v = naiveLevel deps (rank k + 1) k) →
          (ds.foldl (fun (acc : Nat × List (Nat × Nat)) d =>
              (max acc.1 ((calcLevel deps f d acc.2 (i :: vis)).1 + 1),
               (calcLevel deps f d acc.2 (i :: vis)).2)) (a0, memo0)).1 =
            ds.foldl (fun a d => max a (naiveLevel deps (rank d + 1) d + 1)) a0 ∧
          (∀ k v, lookupMemo
              (ds.foldl (fun (acc : Nat × List (Nat × Nat)) d =>
                (max acc.1 ((calcLevel deps f d acc.2 (i :: vis)).1 + 1),
                 (calcLevel deps f d acc.2 (i :: vis)).2)) (a0, memo0)).2 k = some v →
            v = naiveLevel deps (rank k + 1) k) ∧
          (∀ k v, lookupMemo memo0 k = some v →
            lookupMemo
              (ds.foldl (fun (acc : Nat × List (Nat × Nat)) d =>
                (max acc.1 ((calcLevel deps f d acc.2 (i :: vis)).1 + 1),
                 (calcLevel deps f d acc.2 (i :: vis)).2)) (a0, memo0)).2 k = some v) := by
        intro ds
        induction ds with
        | nil =>
          intro hds a0 memo0 hinv0
          exact ⟨rfl, hinv0, fun k v hv => hv⟩
        | cons d dt ihd =>
          intro hds a0 memo0 hinv0
          obtain ⟨hdf, hdvis⟩ := hds d (by simp)
          obtain ⟨c1, c2, c3, c4⟩ := ih d memo0 (i :: vis) hdf hdvis hinv0
          rw [List.foldl_cons, List.foldl_cons, c1]
          obtain ⟨t1, t2, t3⟩ := ihd (fun x hx => hds x (by simp [hx]))
            (max a0 (naiveLevel deps (rank d + 1) d + 1))
            ((calcLevel deps f d memo0 (i :: vis)).2) c2
          exact ⟨t1, t2, fun k v hv => t3 k v (c3 k v hv)⟩
      have hdsok : ∀ d ∈ deps i, rank d < f ∧ ∀ v ∈ i :: vis, rank d < rank v := by
        intro d hd
        have hdi := H i d hd
        constructor
        · omega
        · intro v hv
          rcases List.mem_cons.mp hv with rfl | hv'
          · exact hdi
          · exact lt_trans hdi (hvis v hv')
      obtain ⟨f1, f2, f3⟩ := foldlem (deps i) hdsok 0 memo hinv
      have hval : (((deps i).foldl (fun (acc : Nat × List (Nat × Nat)) d =>
          (max acc.1 ((calcLevel deps f d acc.2 (i :: vis)).1 + 1),
           (calcLevel deps f d acc.2 (i :: vis)).2)) (0, memo)).1) =
          naiveLevel deps (rank i + 1) i := by
        rw [f1, ← naive_recurrence deps rank H i]
      have hrw : calcLevel deps (f + 1) i memo vis =
          ((((deps i).foldl (fun (acc : Nat × List (Nat × Nat)) d =>
            (max acc.1 ((calcLevel deps f d acc.2 (i :: vis)).1 + 1),
             (calcLevel deps f d acc.2 (i :: vis)).2)) (0, memo)).1),
           (i, (((deps i).foldl (fun (acc : Nat × List (Nat × Nat)) d =>
            (max acc.1 ((calcLevel deps f d acc.2 (i :: vis)).1 + 1),
             (calcLevel deps f d acc.2 (i :: vis)).2)) (0, memo)).1)) ::
           (((deps i).foldl (fun (acc : Nat × List (Nat × Nat)) d =>
            (max acc.1 ((calcLevel deps f d acc.2 (i :: vis)).1 + 1),
             (calcLevel deps f d acc.2 (i :: vis)).2)) (0, memo)).2)) := by
        rw [calcLevel, hm]
        simp only [if_neg hni]
      rw [hrw]
      refine ⟨hval, ?_, ?_, ?_⟩
      · intro k v hv
        rw [lookupMemo] at hv
        split at hv
        · next hik =>
          subst hik
          rw [← Option.some.inj hv, hval]
        · exact f2 k v hv
      · intro k v hv
        have hki : i ≠ k := by
          intro hik
          rw [← hik] at hv
          rw [hv] at hm
          exact Option.noConfusion hm
        rw [lookupMemo]
        rw [if_neg hki]
        exact f3 k v hv
      · rw [lookupMemo]
        rw [if_pos rfl, hval]
    · have hl : l = naiveLevel deps (rank i + 1) i := hinv i l hm
      have hrw : calcLevel deps (f + 1) i memo vis = (l, memo) := by
        rw [calcLevel, hm]
      rw [hrw]
      refine ⟨hl, hinv, fun k v hv => hv, ?_⟩
      rw [hm, hl]

theorem memoFold_correct (deps : Nat → List Nat) (rank : Nat → Nat)
    (H : ∀ i d, d ∈ deps i → rank d < rank i) (fuel : Nat) :
    ∀ (l : List Node) (memo : List (Nat × Nat)),
      (∀ n ∈ l, rank n.idn < fuel) →
      (∀ k v, lookupMemo memo k = some v → v = naiveLevel deps (rank k + 1) k) →
      (∀ k v, lookupMemo (l.foldl (fun m n => (calcLevel deps fuel n.idn m []).2) memo) k =
          some v → v = naiveLevel deps (rank k + 1) k) ∧
      (∀ k v, lookupMemo memo k = some v →
        lookupMemo (l.foldl (fun m n => (calcLevel deps fuel n.idn m []).2) memo) k = some v) ∧
      (∀ n ∈ l, lookupMemo (l.foldl (fun m n => (calcLevel deps fuel n.idn m []).2) memo) n.idn =
        some (naiveLevel deps (rank n.idn + 1) n.idn)) := by
  intro l
  induction l with
  | nil =>
    intro memo hl hinv
    exact ⟨hinv, fun k v hv => hv, by simp⟩
  | cons n t ih =>
    intro memo hl hinv
    obtain ⟨c1, c2, c3, c4⟩ := calcLevel_correct deps rank H fuel n.idn memo []
      (hl n (by simp)) (by simp) hinv
    obtain ⟨t1, t2, t3⟩ := ih ((calcLevel deps fuel n.idn memo []).2)
      (fun m hm => hl m (by simp [hm])) c2
    rw [List.foldl_cons]
    refine ⟨t1, fun k v hv => t2 k v (c3 k v hv), ?_⟩
    intro m hm
    rcases List.mem_cons.mp hm with rfl | hm'
    · exact t2 m.idn _ c4
    · exact t3 m hm'

theorem mem_foldl_append_topo (l : List Node) :
    ∀ (a0 : List Nat) (d : Nat), d ∈ l.foldl (fun acc n => acc ++ n.topo) a0 →
      d ∈ a0 ∨ ∃ m ∈ l, d ∈ m.topo := by
  induction l with
  | nil => intro a0 d hd; exact Or.inl hd
  | cons n t ih =>
    intro a0 d hd
    rw [List.foldl_cons] at hd
    rcases ih (a0 ++ n.topo) d hd with h1 | ⟨m, hm, hdm⟩
    · rcases List.mem_append.mp h1 with h2 | h2
      · exact Or.inl h2
      · exact Or.inr ⟨n, by simp, h2⟩
    · exact Or.inr ⟨m, by simp [hm], hdm⟩

theorem mem_buildDeps (ns : List Node) (i d : Nat) (hd : d ∈ buildDeps ns i) :
    ∃ m ∈ ns, m.idn = i ∧ d ∈ m.topo := by
  unfold buildDeps at hd
  rcases mem_foldl_append_topo _ _ d hd with h1 | ⟨m, hm, hdm⟩
  · exact absurd h1 (by simp)
  · have hmf := List.mem_filter.mp hm
    exact ⟨m, hmf.1, by simpa using hmf.2, hdm⟩

theorem filter_idn_nil (t : List Node) (i : Nat) (h : ∀ b ∈ t, b.idn ≠ i) :
    t.filter (fun n => n.idn = i) = [] := by
  rw [List.filter_eq_nil_iff]
  intro b hb
  simpa using h b hb

theorem buildDeps_eq (ns : List Node) (huniq : ns.Pairwise (fun a b => a.idn ≠ b.idn)) :
    ∀ m ∈ ns, buildDeps ns m.idn = m.topo := by
  induction ns with
  | nil => intro m hm; exact absurd hm (by simp)
  | cons a t ih =>
    obtain ⟨hat, ht⟩ := List.pairwise_cons.mp huniq
    intro m hm
    rcases List.mem_cons.mp hm with rfl | hm'
    · unfold buildDeps
      rw [List.filter_cons_of_pos (by simp),
        filter_idn_nil t m.idn (fun b hb => (hat b hb).symm)]
      rfl
    · have hne : a.idn ≠ m.idn := hat m hm'
      unfold buildDeps
      rw [List.filter_cons_of_neg (by simpa using hne)]
      have := ih ht m hm'
      unfold buildDeps at this
      exact this

theorem find_first_self (ns : List Node) (huniq : ns.Pairwise (fun a b => a.idn ≠ b.idn)) :
    ∀ m ∈ ns, ns.find? (fun x => x.idn = m.idn) = some m := by
  induction ns with
  | nil => intro m hm; exact absurd hm (by simp)
  | cons a t ih =>
    obtain ⟨hat, ht⟩ := List.pairwise_cons.mp huniq
    intro m hm
    rcases List.mem_cons.mp hm with rfl | hm'
    · rw [List.find?_cons_of_pos _ (by simp)]
    · rw [List.find?_cons_of_neg _ (by simpa using hat m hm')]
      exact ih ht m hm'

/-! ## Claim theorems -/

/-- C5: for every acyclic well-formed graph (unique ids, every dependency
the id of a graph node, witnessed acyclic by a rank function descending
along dependency edges) and any fuel exceeding every rank (Go recurses
unboundedly; the memoized recursion is stable once the fuel covers the
dependency depth), scheduler construction assigns every node a level equal
to one plus the maximum level of its direct dependencies (zero if none; the
fold form below is exactly that recurrence), makes every node's level
strictly greater than each of its dependencies' levels, and places every
dependency in a task group of strictly lower level. -/
theorem scheduler_levels_spec (ns : List Node) (rank : Nat → Nat) (fuel : Nat)
    (huniq : ns.Pairwise (fun a b => a.idn ≠ b.idn))
    (hcov : ∀ n ∈ ns, ∀ d ∈ n.topo, ∃ m ∈ ns, m.idn = d)
    (hrank : ∀ n ∈ ns, ∀ d ∈ n.topo, rank d < rank n.idn)
    (hfuel : ∀ n ∈ ns, rank n.idn < fuel) :
    (∀ n ∈ ns, levelOf ns fuel n.idn =
       n.topo.foldl (fun a d => max a (levelOf ns fuel d + 1)) 0) ∧
    (∀ n ∈ ns, ∀ d ∈ n.topo, levelOf ns fuel d < levelOf ns fuel n.idn) ∧
    (∀ n ∈ ns, ∀ m ∈ ns, m.idn ∈ n.topo →
       ∃ gns, (levelOf ns fuel m.idn, gns) ∈ createTaskGroups ns fuel ∧
         m ∈ gns ∧ levelOf ns fuel m.idn < levelOf ns fuel n.idn) := by
  have H : ∀ i d, d ∈ buildDeps ns i → rank d < rank i := by
    intro i d hd
    obtain ⟨m, hm, hmi, hdm⟩ := mem_buildDeps ns i d hd
    subst hmi
    exact hrank m hm d hdm
  obtain ⟨inv, pres, mem⟩ := memoFold_correct (buildDeps ns) rank H fuel ns [] hfuel
    (by intro k v hv; exact absurd hv (by simp [lookupMemo]))
  have hlev : ∀ m ∈ ns, levelOf ns fuel m.idn =
      naiveLevel (buildDeps ns) (rank m.idn + 1) m.idn := by
    intro m hm
    unfold levelOf
    have hcl : computeLevels ns fuel =
        ns.foldl (fun m n => (calcLevel (buildDeps ns) fuel n.idn m []).2) [] := rfl
    rw [hcl, mem m hm]
    rfl
  have hlevd : ∀ n ∈ ns, ∀ d ∈ n.topo, levelOf ns fuel d =
      naiveLevel (buildDeps ns) (rank d + 1) d := by
    intro n hn d hd
    obtain ⟨m, hm, hmi⟩ := hcov n hn d hd
    subst hmi
    exact hlev m hm
  have hrec : ∀ n ∈ ns, naiveLevel (buildDeps ns) (rank n.idn + 1) n.idn =
      n.topo.foldl (fun a d =>
        max a (naiveLevel (buildDeps ns) (rank d + 1) d + 1)) 0 := by
    intro n hn
    rw [naive_recurrence (buildDeps ns) rank H n.idn, buildDeps_eq ns huniq n hn]
  have part1 : ∀ n ∈ ns, levelOf ns fuel n.idn =
      n.topo.foldl (fun a d => max a (levelOf ns fuel d + 1)) 0 := by
    intro n hn
    rw [hlev n hn, hrec n hn]
    refine foldl_congr_fn n.topo _ _ ?_ 0
    intro b d hd
    rw [hlevd n hn d hd]
  have part2 : ∀ n ∈ ns, ∀ d ∈ n.topo, levelOf ns fuel d < levelOf ns fuel n.idn := by
    intro n hn d hd
    rw [hlev n hn, hrec n hn, hlevd n hn d hd]
    have hle := (le_foldl_max n.topo
      (fun d => naiveLevel (buildDeps ns) (rank d + 1) d + 1) 0).2 d hd
    omega
  refine ⟨part1, part2, ?_⟩
  intro n hn m hm hmem
  have hml : levelOf ns fuel m.idn ≤
      ns.foldl (fun mx x => max mx (levelOf ns fuel x.idn)) 0 :=
    (le_foldl_max ns (fun x => levelOf ns fuel x.idn) 0).2 m hm
  have hfw : firstWithId ns m = m := by
    unfold firstWithId
    rw [find_first_self ns huniq m hm]
    rfl
  have hmf : m ∈ ns.filter (fun x => levelOf ns fuel x.idn = levelOf ns fuel m.idn) :=
    List.mem_filter.mpr ⟨hm, by simp⟩
  have hmg : m ∈ (ns.filter (fun x => levelOf ns fuel x.idn = levelOf ns fuel m.idn)).map
      (firstWithId ns) :=
    List.mem_map.mpr ⟨m, hmf, hfw⟩
  have hgne : ((ns.filter (fun x => levelOf ns fuel x.idn = levelOf ns fuel m.idn)).map
      (firstWithId ns)).isEmpty = false := by
    rcases hg : (ns.filter (fun x => levelOf ns fuel x.idn = levelOf ns fuel m.idn)).map
        (firstWithId ns) with _ | ⟨x, xs⟩
    · rw [hg] at hmg
      exact absurd hmg (by simp)
    · rw [hg]
      rfl
  refine ⟨(ns.filter (fun x => levelOf ns fuel x.idn = levelOf ns fuel m.idn)).map
    (firstWithId ns), ?_, hmg, ?_⟩
  · have hct : createTaskGroups ns fuel =
        (List.range ((ns.foldl (fun mx x => max mx (levelOf ns fuel x.idn)) 0) + 1)).filterMap
          (fun i =>
            if ((ns.filter (fun x => levelOf ns fuel x.idn = i)).map
                (firstWithId ns)).isEmpty then none
            else some (i, (ns.filter (fun x => levelOf ns fuel x.idn = i)).map
              (firstWithId ns))) := rfl
    rw [hct]
    refine List.mem_filterMap.mpr ⟨levelOf ns fuel m.idn, List.mem_range.mpr (by omega), ?_⟩
    rw [hgne]
    rfl
  · exact part2 n hn m.idn hmem

/-- Witness for C5: the S3 diamond with rank the identity and fuel 16. -/
theorem scheduler_levels_spec_witness :
    diamondNodes.Pairwise (fun a b => a.idn ≠ b.idn) ∧
    (∀ n ∈ diamondNodes, ∀ d ∈ n.topo, ∃ m ∈ diamondNodes, m.idn = d) ∧
    (∀ n ∈ diamondNodes, ∀ d ∈ n.topo, id d < id n.idn) ∧
    (∀ n ∈ diamondNodes, id n.idn < 16) ∧
    ((∀ n ∈ diamondNodes, levelOf diamondNodes 16 n.idn =
       n.topo.foldl (fun a d => max a (levelOf diamondNodes 16 d + 1)) 0) ∧
    (∀ n ∈ diamondNodes, ∀ d ∈ n.topo,
       levelOf diamondNodes 16 d < levelOf diamondNodes 16 n.idn) ∧
    (∀ n ∈ diamondNodes, ∀ m ∈ diamondNodes, m.idn ∈ n.topo →
       ∃ gns, (levelOf diamondNodes 16 m.idn, gns) ∈ createTaskGroups diamondNodes 16 ∧
         m ∈ gns ∧ levelOf diamondNodes 16 m.idn < levelOf diamondNodes 16 n.idn)) :=
  ⟨by decide, by decide, by decide, by decide,
    scheduler_levels_spec diamondNodes id 16 (by decide) (by decide) (by decide) (by decide)⟩


/-- C1 (streaming vs sequential): the streaming worker path dispatches only
the engine-local all-noop kernelCatalog against raw arena-buffer offsets
and never swaps or even touches the sublate buffers, so a streaming pass
is the identity on all memory; the sequential path runs kernels.GetKernel
kernels on each sublate's prop buffer and swaps the buffers.  On the S1
state the sequential pass therefore ends with prev zeroed and the payload
in prop, while the streaming pass leaves prev holding the payload: the two
paths are not byte-identical.  Only opcode 0x00 is ever dispatched here and
`noopImpl` fixes its source semantics (the empty noop body). -/
theorem streaming_vs_sequential_divergence :
    (∀ (buffer : List Nat) (groups : List (List Node)),
       runStreamingPass buffer groups = buffer) ∧
    ((runSequentialExecution noopImpl (initializeSublates ⟨[s1Node], s1Payload⟩)).2.map
       (fun s => (s.prev.take 16, s.prop.take 16)))
      = [(List.replicate 16 0, List.replicate 16 0xAA)] ∧
    ((initializeSublates ⟨[s1Node], s1Payload⟩).map
       (fun s => (s.prev.take 16, s.prop.take 16)))
      = [(List.replicate 16 0xAA, List.replicate 16 0)] ∧
    ((List.replicate 16 (0 : Nat), List.replicate 16 (0xAA : Nat)) ≠
      (List.replicate 16 (0xAA : Nat), List.replicate 16 (0 : Nat))) :=
  ⟨runStreamingPass_id, by decide, by decide, by decide⟩

/-- C2 counterexample: opcode 0x0D has no registered kernel, and a
sequential pass over a sublate carrying it fails with the unknown-kernel-ID
error instead of no-opping without error as the claim states. -/
theorem unknown_opcode_error_counterexample :
    catalogRegistered 0x0D = false ∧
    (runSequentialExecution noopImpl [⟨0x0D, 0, [], [1, 2], [3, 4]⟩]).1 =
      .error "unknown kernel ID" :=
  ⟨by decide, rfl⟩

/-- C2 as amended: for every sublate whose opcode has no registered kernel
(Catalog slots 0x0D-0xFF are nil), dispatch returns the unknown-kernel-ID
error — execution fails rather than no-ops — and the error is produced
before any kernel invocation or buffer swap, so the sublate (and the rest
of the pass) is left unchanged. -/
theorem unknown_opcode_error_spec (impl : Nat → List Nat → List Nat) (s : Sublate)
    (h : catalogRegistered s.kernelID = false) :
    executeSublate impl s = (.error "unknown kernel ID", s) ∧
    ∀ rest, runSequentialExecution impl (s :: rest) =
      (.error "unknown kernel ID", s :: rest) := by
  have hk : getKernel impl s.kernelID = none := by
    unfold getKernel
    rw [h]
    rfl
  have he : executeSublate impl s = (.error "unknown kernel ID", s) := by
    unfold executeSublate
    rw [hk]
  refine ⟨he, ?_⟩
  intro rest
  rw [runSequentialExecution, he]

/-- Witness for C2: the opcode-13 sublate at a concrete state. -/
theorem unknown_opcode_error_spec_witness :
    catalogRegistered (13 : Nat) = false ∧
    (executeSublate noopImpl ⟨13, 0, [], [1, 2], [3, 4]⟩ =
      (.error "unknown kernel ID", ⟨13, 0, [], [1, 2], [3, 4]⟩) ∧
    ∀ rest, runSequentialExecution noopImpl (⟨13, 0, [], [1, 2], [3, 4]⟩ :: rest) =
      (.error "unknown kernel ID", (⟨13, 0, [], [1, 2], [3, 4]⟩ : Sublate) :: rest)) :=
  ⟨by decide, unknown_opcode_error_spec noopImpl ⟨13, 0, [], [1, 2], [3, 4]⟩ (by decide)⟩

/-- C3 counterexample: on the S4 two-node cycle, scheduler construction
does not fail — it produces a non-empty task-group list (and
NewStreamScheduler has no error path at all; no GraphCyclic error exists
in the runtime).  Fuel 8 exceeds the recursion depth (3) the Go
visit-in-progress marker allows on this graph, so the model computes the
Go result. -/
theorem cycle_not_rejected_counterexample :
    createTaskGroups cycleNodes 8 ≠ [] ∧
    lookupMemo (computeLevels cycleNodes 8) 0 = some 2 ∧
    lookupMemo (computeLevels cycleNodes 8) 1 = some 1 := by
  refine ⟨by decide, by decide, by decide⟩

/-- C3 as amended: loading a cyclic model is not rejected and scheduler
construction succeeds; on the S4 cycle the visit-in-progress marker makes
an in-progress dependency report level 0, so node 1 is assigned level 1
and node 0 level 2, yielding task groups at levels 1 and 2. -/
theorem cycle_scheduler_construction_succeeds :
    createTaskGroups cycleNodes 8 =
      [(1, [⟨1, 0, 0, 0, 0, [0]⟩]), (2, [⟨0, 0, 0, 0, 0, [1]⟩])] := by
  decide

/-- C4 counterexample: after the S1 pass the node's prev buffer holds
zeros, not the 16 bytes of 0xAA the claim states (the pass swapped the
buffers). -/
theorem s1_prev_swapped_counterexample :
    (runSequentialExecution noopImpl (initializeSublates ⟨[s1Node], s1Payload⟩)).1 = .ok () ∧
    ((runSequentialExecution noopImpl (initializeSublates ⟨[s1Node], s1Payload⟩)).2.map
      (fun s => s.prev.take 16)) = [List.replicate 16 0] ∧
    List.replicate 16 (0 : Nat) ≠ List.replicate 16 0xAA :=
  ⟨rfl, by decide, by decide⟩

/-- C4 as amended: loading the S1 model copies the 16 payload bytes of
0xAA into the head of prev; running one pass dispatches the no-op kernel
on prop and swaps the buffers, so afterwards the node's prop buffer begins
with the 16 bytes of 0xAA while prev holds the zeroed scratch buffer.
`impl 0 = noopKernel` pins the only dispatched kernel to its source
semantics. -/
theorem s1_payload_lands_in_prop (impl : Nat → List Nat → List Nat)
    (h0 : impl 0 = noopKernel) :
    (runSequentialExecution impl (initializeSublates ⟨[s1Node], s1Payload⟩)).1 = .ok () ∧
    ((runSequentialExecution impl (initializeSublates ⟨[s1Node], s1Payload⟩)).2.map
      (fun s => s.prop.take 16)) = [List.replicate 16 0xAA] ∧
    ((runSequentialExecution impl (initializeSublates ⟨[s1Node], s1Payload⟩)).2.map
      (fun s => s.prev)) = [List.replicate 64 0] := by
  have hs : initializeSublates ⟨[s1Node], s1Payload⟩ = [initSublate s1Payload s1Node] := rfl
  have hkid : (initSublate s1Payload s1Node).kernelID = 0 := by decide
  have hg : getKernel impl (initSublate s1Payload s1Node).kernelID = some noopKernel := by
    rw [hkid]
    unfold getKernel
    rw [h0]
    rfl
  have he : executeSublate impl (initSublate s1Payload s1Node) =
      (.ok (), initSublate s1Payload s1Node) := by
    unfold executeSublate
    rw [hg]
    rfl
  have hr : runSequentialExecution impl [initSublate s1Payload s1Node] =
      (.ok (), [swapBuffers (initSublate s1Payload s1Node)]) := by
    rw [runSequentialExecution, he, runSequentialExecution]
  rw [hs, hr]
  refine ⟨rfl, by decide, by decide⟩

/-- Witness for C4: the all-noop instantiation of the registry. -/
theorem s1_payload_lands_in_prop_witness :
    noopImpl 0 = noopKernel ∧
    ((runSequentialExecution noopImpl (initializeSublates ⟨[s1Node], s1Payload⟩)).1 = .ok () ∧
    ((runSequentialExecution noopImpl (initializeSublates ⟨[s1Node], s1Payload⟩)).2.map
      (fun s => s.prop.take 16)) = [List.replicate 16 0xAA] ∧
    ((runSequentialExecution noopImpl (initializeSublates ⟨[s1Node], s1Payload⟩)).2.map
      (fun s => s.prev)) = [List.replicate 64 0]) :=
  ⟨rfl, s1_payload_lands_in_prop noopImpl rfl⟩

/-- C9: a streaming-configured engine with a non-empty StreamingInput
region rejects an over-long input with the overflow error, returning the
engine state exactly as it was (no pass is run, no node buffer or window
byte changes); an input within the window size is written: the write step
succeeds and the window afterwards begins with the input bytes. -/
theorem streaming_overflow_spec (impl : Nat → List Nat → List Nat) (st : StreamEngine)
    (input output : List Nat)
    (hconf : st.streaming = true) (hsz : 0 < st.streamingSize)
    (hwin : st.window.length = st.streamingSize) :
    (st.streamingSize < input.length →
       executeStreaming impl st input output = (.error .overflow, st)) ∧
    (input.length ≤ st.streamingSize →
       ((writeToStreamingInput st input).1 = .ok () ∧
        (executeStreaming impl st input output).2.window = goCopy st.window input ∧
        (executeStreaming impl st input output).2.window.take input.length = input ∧
        (executeStreaming impl st input output).2.window.length = st.window.length)) := by
  have hnot : ¬ ¬ st.streaming = true := by simp [hconf]
  constructor
  · intro hover
    unfold executeStreaming
    rw [if_neg hnot]
    have hw : writeToStreamingInput st input = (.error .overflow, st) := by
      unfold writeToStreamingInput
      rw [if_neg (by omega), if_pos hover]
    rw [hw]
  · intro hle
    have hw : writeToStreamingInput st input =
        (.ok (), { st with window := goCopy st.window input }) := by
      unfold writeToStreamingInput
      rw [if_neg (by omega), if_neg (by omega)]
    have hwin2 : (goCopy st.window input).take input.length = input := by
      rw [goCopy_of_le st.window input (by omega)]
      exact List.take_left ..
    refine ⟨by rw [hw], ?_, ?_, ?_⟩ <;>
      · unfold executeStreaming
        rw [if_neg hnot, hw]
        rcases hrun : runSequentialExecution impl
            ({ st with window := goCopy st.window input }).sublates with ⟨r, subs⟩
        cases r with
        | error e => simp [hrun, hwin2, goCopy_length]
        | ok u =>
          cases subs with
          | nil => simp [hrun, hwin2, goCopy_length]
          | cons s0 tl => simp [hrun, hwin2, goCopy_length]

/-- Witness for C9: the S5 window of 32 bytes, with a 33-byte and a
32-byte input. -/
theorem streaming_overflow_spec_witness :
    s5Engine.streaming = true ∧ 0 < s5Engine.streamingSize ∧
    s5Engine.window.length = s5Engine.streamingSize ∧
    (s5Engine.streamingSize < (List.replicate 33 (7 : Nat)).length →
       executeStreaming noopImpl s5Engine (List.replicate 33 7) (List.replicate 8 0) =
         (.error .overflow, s5Engine)) ∧
    ((List.replicate 32 (7 : Nat)).length ≤ s5Engine.streamingSize →
       ((writeToStreamingInput s5Engine (List.replicate 32 7)).1 = .ok () ∧
        (executeStreaming noopImpl s5Engine (List.replicate 32 7)
          (List.replicate 8 0)).2.window = goCopy s5Engine.window (List.replicate 32 7) ∧
        (executeStreaming noopImpl s5Engine (List.replicate 32 7)
          (List.replicate 8 0)).2.window.take (List.replicate 32 (7 : Nat)).length =
            List.replicate 32 7 ∧
        (executeStreaming noopImpl s5Engine (List.replicate 32 7)
          (List.replicate 8 0)).2.window.length = s5Engine.window.length)) :=
  ⟨by decide, by decide, by decide,
    (streaming_overflow_spec noopImpl s5Engine (List.replicate 33 7) (List.replicate 8 0)
      (by decide) (by decide) (by decide)).1,
    (streaming_overflow_spec noopImpl s5Engine (List.replicate 32 7) (List.replicate 8 0)
      (by decide) (by decide) (by decide)).2⟩

/-- C10: every graph the deserializer accepts has, in every node, a
topology list of length at most 2 containing no 0xFFFF sentinel: the
fixed two-slot record cannot yield more than two dependencies and sentinel
padding entries are filtered out. -/
theorem deserialize_topo_bounded (bs : List Nat) (g : Graph)
    (h : deserialize bs = some g) :
    ∀ n ∈ g.nodes, n.topo.length ≤ 2 ∧ 0xFFFF ∉ n.topo := by
  unfold deserialize at h
  repeat' (split at h; try (exact absurd h (by simp)))
  rename_i x0 nsv p2v hpn
  dsimp only at h
  split at h
  · exact absurd h (by simp)
  · have hg := Option.some.inj h
    subst hg
    intro n hn
    exact parseNodes_topo bs _ _ _ _ hpn n hn


/-- C8 counterexample: the accepted byte sequence `staleSlotBytes` carries
the non-sentinel value 5 in an unused topology slot (byte offset 24,
inside the node records, well before the alignment padding that starts at
offset 28); re-serializing the parsed graph rewrites that slot to the
0xFFFF sentinel, so the bytes differ beyond the defined padding. -/
theorem roundtrip_bytes_counterexample :
    deserialize staleSlotBytes = some staleSlotGraph ∧
    serialize staleSlotGraph ≠ staleSlotBytes ∧
    (serialize staleSlotGraph).length = staleSlotBytes.length ∧
    staleSlotBytes.get? 24 = some 5 ∧
    (serialize staleSlotGraph).get? 24 = some 255 ∧
    24 < 12 + 16 * staleSlotGraph.nodes.length :=
  ⟨by decide, by decide, by decide, by decide, by decide, by decide⟩

/-- C8 as amended: the graph-level round trip holds — for every graph
whose fields fit their serialized widths, whose nodes carry at most two
non-sentinel topology entries and whose payload is non-empty,
Deserialize(Serialize g) reproduces g exactly.  (The byte-level direction
fails: unused topology slot bytes and over-long topoLen counts are not
preserved, and an empty payload makes re-parsing fail with io.EOF.) -/
theorem serialize_deserialize_roundtrip (g : Graph) (h : wellFormedGraph g) :
    deserialize (serialize g) = some g := by
  obtain ⟨hN, hP0, hP, hns⟩ := h
  have hd0 : (serialize g).drop 0 =
      u32le 0x53554C42 ++ (u16le 1 ++ (u16le g.nodes.length ++ (u32le g.payload.length ++
        ((g.nodes.map nodeBytes).flatten ++
          (List.replicate (alignUp 32 (u32le 0x53554C42 ++ u16le 1 ++ u16le g.nodes.length ++
            u32le g.payload.length ++ (g.nodes.map nodeBytes).flatten).length -
            (u32le 0x53554C42 ++ u16le 1 ++ u16le g.nodes.length ++
            u32le g.payload.length ++ (g.nodes.map nodeBytes).flatten).length) 0 ++
           g.payload))))) := by
    rw [List.drop_zero, serialize]
    simp only [List.append_assoc]
  obtain ⟨r1, hd1⟩ := readU32_step (serialize g) _ 0 0x53554C42 (by norm_num) hd0
  obtain ⟨r2, hd2⟩ := readU16_step (serialize g) _ (0 + 4) 1 (by norm_num) hd1
  obtain ⟨r3, hd3⟩ := readU16_step (serialize g) _ (0 + 4 + 2) g.nodes.length hN hd2
  obtain ⟨r4, hd4⟩ := readU32_step (serialize g) _ (0 + 4 + 2 + 2) g.payload.length hP hd3
  obtain ⟨r5, hd5⟩ := parseNodes_step (serialize g) g.nodes _ (0 + 4 + 2 + 2 + 4) hns hd4
  have htp2 : ∀ n ∈ g.nodes, n.topo.length ≤ 2 := fun n hn => (hns n hn).2.2.2.2.2.1
  have hpre : (u32le 0x53554C42 ++ u16le 1 ++ u16le g.nodes.length ++
      u32le g.payload.length ++ (g.nodes.map nodeBytes).flatten).length =
      12 + 16 * g.nodes.length := by
    simp only [List.length_append, records_length g.nodes htp2, u32le, u16le,
      List.length_cons, List.length_nil]
  rw [hpre] at hd5
  norm_num at r1 r2 r3 r4 r5 hd5
  have hal := le_alignUp 32 (12 + 16 * g.nodes.length) (by norm_num)
  have hslen : (serialize g).length =
      alignUp 32 (12 + 16 * g.nodes.length) + g.payload.length := by
    rw [serialize]
    simp only [List.length_append, List.length_replicate, hpre]
    omega
  have hdrop : (serialize g).drop (alignUp 32 (12 + 16 * g.nodes.length)) = g.payload := by
    have h1 : alignUp 32 (12 + 16 * g.nodes.length) =
        (12 + 16 * g.nodes.length) +
          (alignUp 32 (12 + 16 * g.nodes.length) - (12 + 16 * g.nodes.length)) := by omega
    rw [h1, ← List.drop_drop, hd5]
    exact List.drop_left' (by simp)
  have hcond : ¬ ((serialize g).length ≤ alignUp 32 (12 + 16 * g.nodes.length)) := by omega
  simp only [deserialize, r1, r2, r3, r4, r5]
  rw [hdrop, List.take_length]
  simp [hcond]

/-- Witness for C8: the two-node graph `roundtripExampleGraph`. -/
theorem serialize_deserialize_roundtrip_witness :
    wellFormedGraph roundtripExampleGraph ∧
    deserialize (serialize roundtripExampleGraph) = some roundtripExampleGraph :=
  ⟨by decide, serialize_deserialize_roundtrip roundtripExampleGraph (by decide)⟩

/-- Witness for C10: the accepted byte sequence `staleSlotBytes` and its
parsed graph. -/
theorem deserialize_topo_bounded_witness :
    deserialize staleSlotBytes = some staleSlotGraph ∧
    (∀ n ∈ staleSlotGraph.nodes, n.topo.length ≤ 2 ∧ 0xFFFF ∉ n.topo) :=
  ⟨by decide, deserialize_topo_bounded staleSlotBytes staleSlotGraph (by decide)⟩

/-- C7: over every request sequence on an arena with a non-empty
NodePayloads region, each successful AllocateNodePayload call returns a
slice of the requested length, aligned as requested (zero alignment
defaulting to 8), inside the region and disjoint from every previously
returned slice; a call whose aligned allocation would exceed the region
fails with the exhaustion error leaving the bump cursor (indeed the whole
state) unchanged, so a subsequent smaller allocation that fits still
succeeds. -/
theorem allocate_node_payload_spec (a0 : NodePayloadState) (reqs : List (Nat × Nat))
    (hstart : a0.cursor = a0.region.offset) (_hsz : 0 < a0.region.size)
    (_hpow : ∀ p ∈ reqs, p.2 = 0 ∨ isPow2 p.2 = true) :
    allocSequenceOk a0 reqs ∧ allocFailureBehavior := by
  obtain ⟨r1, r2, r3, r4⟩ := runAllocs_invariant reqs a0 (by omega)
  refine ⟨⟨?_, r4⟩, allocateNodePayload_error_state, ?_⟩
  · intro t ht
    obtain ⟨m1, m2, m3, m4⟩ := r3 t ht
    exact ⟨m2, m3, m4⟩
  · intro a sz al h1 h2
    exact allocateNodePayload_ok_of_fits a sz al h1 h2

/-- Witness for C7: the concrete four-request sequence on the `[192, 320)`
region (the third request fails on exhaustion, the fourth fits again). -/
theorem allocate_node_payload_spec_witness :
    allocExampleState.cursor = allocExampleState.region.offset ∧
    0 < allocExampleState.region.size ∧
    (∀ p ∈ allocExampleReqs, p.2 = 0 ∨ isPow2 p.2 = true) ∧
    (allocSequenceOk allocExampleState allocExampleReqs ∧ allocFailureBehavior) :=
  ⟨by decide, by decide, by decide,
    allocate_node_payload_spec allocExampleState allocExampleReqs
      (by decide) (by decide) (by decide)⟩

/-- C6: for every arena construction whose inputs are accepted (all six
regions non-empty, layoutArenaRegions succeeding), the region offsets in
layout order are strictly increasing and 32-byte aligned, the regions are
pairwise disjoint, and the end of the last region does not exceed the
backing buffer length. -/
theorem arena_layout_regions_ordered (inp : LayoutInputs) (L : ArenaLayout)
    (hp : 0 < inp.payloadLen) (hn : 0 < inp.numNodes) (hss : 0 < inp.sublateStructSize)
    (hnp : 0 < inp.nodePayloadsSize) (hsc : 0 < inp.scratchSize)
    (hst : 0 < inp.streamingInputSize)
    (hok : layoutArenaRegions inp = some L) (hft : 0 < L.freeTail.size) :
    arenaLayoutOrdered inp L := by
  unfold arenaLayoutOrdered
  have hp' : inp.payloadLen ≠ 0 := hp.ne'
  have hn' : inp.numNodes ≠ 0 := hn.ne'
  have hnp' : inp.nodePayloadsSize ≠ 0 := hnp.ne'
  have hsc' : inp.scratchSize ≠ 0 := hsc.ne'
  have hst' : inp.streamingInputSize ≠ 0 := hst.ne'
  unfold layoutArenaRegions at hok
  simp only [layoutModelPayload, layoutSublateMetadata, layoutSized, layoutFreeTail,
    if_neg hp', if_neg hn', if_neg hnp', if_neg hsc', if_neg hst'] at hok
  split at hok
  · exact absurd hok (by simp)
  · replace hok := Option.some.inj hok
    subst hok
    simp only [ArenaRegion.stop] at hft ⊢
    have h00 : alignedSize 0 = 0 := by decide
    rw [h00] at hft ⊢
    have h64 : (0 : Nat) < 64 := by norm_num
    have hA1 : inp.payloadLen ≤ alignedSize inp.payloadLen := le_alignUp 64 _ h64
    have hA2 : alignedSize inp.payloadLen % 32 = 0 := alignedSize_mod32 _
    have hM : 0 < inp.numNodes * alignedSize inp.sublateStructSize :=
      Nat.mul_pos hn (lt_of_lt_of_le hss (le_alignUp 64 _ h64))
    have hB1 : 0 + alignedSize inp.payloadLen ≤
        alignedSize (0 + alignedSize inp.payloadLen) := le_alignUp 64 _ h64
    have hB2 : alignedSize (0 + alignedSize inp.payloadLen) % 32 = 0 := alignedSize_mod32 _
    set B := alignedSize (0 + alignedSize inp.payloadLen) with hB
    have hC1 : B + inp.numNodes * alignedSize inp.sublateStructSize ≤
        alignedSize (B + inp.numNodes * alignedSize inp.sublateStructSize) := le_alignUp 64 _ h64
    have hC2 : alignedSize (B + inp.numNodes * alignedSize inp.sublateStructSize) % 32 = 0 :=
      alignedSize_mod32 _
    set C := alignedSize (B + inp.numNodes * alignedSize inp.sublateStructSize) with hC
    have hD1 : C + inp.nodePayloadsSize ≤ alignedSize (C + inp.nodePayloadsSize) :=
      le_alignUp 64 _ h64
    have hD2 : alignedSize (C + inp.nodePayloadsSize) % 32 = 0 := alignedSize_mod32 _
    set D := alignedSize (C + inp.nodePayloadsSize) with hD
    have hE1 : D + inp.scratchSize ≤ alignedSize (D + inp.scratchSize) := le_alignUp 64 _ h64
    have hE2 : alignedSize (D + inp.scratchSize) % 32 = 0 := alignedSize_mod32 _
    set E := alignedSize (D + inp.scratchSize) with hE
    have hF1 : E + inp.streamingInputSize ≤ alignedSize (E + inp.streamingInputSize) :=
      le_alignUp 64 _ h64
    have hF2 : alignedSize (E + inp.streamingInputSize) % 32 = 0 := alignedSize_mod32 _
    set F := alignedSize (E + inp.streamingInputSize) with hF
    refine ⟨⟨?_, ?_, ?_, ?_, ?_⟩, ⟨?_, ?_, ?_, ?_, ?_⟩, ⟨?_, ?_, ?_, ?_, ?_, ?_⟩, ?_⟩ <;> omega

/-- Witness for C6: the concrete 1024-byte construction is accepted with
all regions non-empty and satisfies the layout ordering facts. -/
theorem arena_layout_regions_ordered_witness :
    layoutArenaRegions layoutExampleInputs = some layoutExampleRegions ∧
    0 < layoutExampleRegions.freeTail.size ∧
    arenaLayoutOrdered layoutExampleInputs layoutExampleRegions :=
  ⟨by decide, by decide,
    arena_layout_regions_ordered layoutExampleInputs layoutExampleRegions
      (by decide) (by decide) (by decide) (by decide) (by decide) (by decide)
      (by decide) (by decide)⟩

end Sublation
